import Mathlib

/-
  Verification development for the Corpus local-first synchronization engine
  (src/extension/src/ui/sync_controller.js).

  The controller is embedded shallowly: the mutable closure state
  (drafts, status, flushing, needsTrailingFlush, destroyed) becomes an explicit
  record, asynchronous effects become an event log, and the `sendCommand`
  collaborator becomes an environment oracle that, for each remote call in
  order, yields a response together with the local edits that arrive during
  that call (the only suspension points at which the single-threaded host can
  interleave edit events with a running flush).
-/

set_option autoImplicit false

namespace Corpus

/-- Sync status values (sync_controller.js: `status` is one of
    saved / pending / saving / error). -/
inductive Status where
  | saved
  | pending
  | saving
  | error
deriving DecidableEq, Repr

abbrev EntityId := String

/-- Draft payloads are opaque JSON values in the source (cloned whole, never
    inspected); they are modelled by an opaque countable carrier. -/
abbrev Payload := Nat

/-- One draft entry, as built by scheduleTypeSave (sync_controller.js lines 55-61). -/
structure Draft where
  cvTypeId : EntityId
  data : Payload
  localUpdatedAtMs : Nat
  baseRemoteUpdatedAt : String
  dirty : Bool
deriving DecidableEq, Repr

/-- The draft store: a JS object keyed by cvTypeId, modelled as an association
    list in key-insertion order (string-keyed JS objects preserve insertion
    order, which `Object.values` then exposes). -/
abbrev DraftMap := List (EntityId × Draft)

/-- `drafts[id]` lookup. -/
def lookupDraft : DraftMap → EntityId → Option Draft
  | [], _ => none
  | (k, d) :: rest, id => if k = id then some d else lookupDraft rest id

/-- `drafts[id] = d`: replaces in place when the key exists, else appends
    (JS property-assignment order semantics). -/
def putDraft : DraftMap → EntityId → Draft → DraftMap
  | [], id, d => [(id, d)]
  | (k, e) :: rest, id, d =>
      if k = id then (id, d) :: rest else (k, e) :: putDraft rest id d

/-- `delete drafts[id]`. -/
def deleteDraft : DraftMap → EntityId → DraftMap
  | [], _ => []
  | (k, e) :: rest, id =>
      if k = id then deleteDraft rest id else (k, e) :: deleteDraft rest id

/-- One entity of the remote state envelope (`remoteState.cvTypes[i]`).
    Only the fields the controller reads are modelled. -/
structure CvType where
  id : EntityId
  data : Payload
deriving DecidableEq, Repr

/-- The remote state envelope. `cvTypes = none` models a value whose `cvTypes`
    field is absent or not an array (the `Array.isArray` guards in the source). -/
structure RemoteState where
  cvTypes : Option (List CvType)
deriving DecidableEq, Repr

/-- Does the cvTypes list contain an entry with the given id
    (the `knownTypeIds.has` test)? -/
def hasId : List CvType → EntityId → Bool
  | [], _ => false
  | t :: rest, k => if t.id = k then true else hasId rest k

/-- pruneDraftsAgainstRemote (sync_controller.js lines 314-330): when the
    envelope carries a cvTypes array, keep only drafts whose entity the remote
    still knows; otherwise return the draft map unchanged. -/
def pruneDraftsAgainstRemote (draftMap : DraftMap) (remote : RemoteState) : DraftMap :=
  match remote.cvTypes with
  | none => draftMap
  | some types => draftMap.filter fun p => hasId types p.1

/-- applyDraftsToRemoteState (lines 332-350): overlay each draft's payload on
    the matching remote entity. -/
def applyDraftsToRemoteState (remote : RemoteState) (draftMap : DraftMap) : RemoteState :=
  match remote.cvTypes with
  | none => remote
  | some types =>
      ⟨some (types.map fun t =>
        match lookupDraft draftMap t.id with
        | some d => { t with data := d.data }
        | none => t)⟩

/-- normalizeDraftMap (lines 286-312): drop falsy keys and non-dirty entries,
    rebuild each kept entry with its key as cvTypeId and dirty forced true. -/
def normalizeDraftMap : DraftMap → DraftMap
  | [] => []
  | (k, d) :: rest =>
      if k = "" then normalizeDraftMap rest
      else if d.dirty then
        (k, { d with cvTypeId := k, dirty := true }) :: normalizeDraftMap rest
      else normalizeDraftMap rest

/-- The two remote commands the controller issues. -/
inductive Cmd where
  | update (cvTypeId : EntityId) (data : Payload)
  | load
deriving DecidableEq, Repr

/-- Observable effects, in emission order: status callbacks, remote commands,
    state callbacks (tagged with their source string), durable-storage writes,
    and the onError callback. -/
inductive Event where
  | statusEv (s : Status)
  | cmdEv (c : Cmd)
  | stateEv (source : String) (st : RemoteState)
  | persistEv (drafts : DraftMap) (st : Status)
  | errorEv
deriving DecidableEq, Repr

/-- The controller's closure-captured mutable state (lines 30-36; the two
    timer handles are scheduling artifacts and carry no data). -/
structure Ctrl where
  drafts : DraftMap
  status : Status
  flushing : Bool
  needsTrailingFlush : Bool
  destroyed : Bool
deriving DecidableEq, Repr

/-- Contents of durable local storage: the normalized draft map under
    LOCAL_DRAFTS_KEY and the status under SYNC_META_KEY. -/
structure Persisted where
  drafts : DraftMap
  status : Status
deriving DecidableEq, Repr

/-- A whole machine configuration: controller state, durable storage
    (none = never written), the event log, and the remote-call counter. -/
structure M where
  ctrl : Ctrl
  stored : Option Persisted
  log : List Event
  calls : Nat
deriving DecidableEq, Repr

/-- An edit request arriving from the host (a scheduleTypeSave call; the time
    is the nowMs() reading at that call). -/
structure EditReq where
  id : EntityId
  data : Payload
  time : Nat
  base : String
deriving DecidableEq, Repr

/-- A remote response: resolved (optionally carrying a state envelope),
    rejected with code STATE_CONFLICT, or rejected with any other error. -/
inductive RResp where
  | ok (st : Option RemoteState)
  | conflictE
  | failE
deriving DecidableEq, Repr

/-- What one awaited remote call observes: the edits the host interleaves
    during the await, then the response. -/
structure Outcome where
  edits : List EditReq
  resp : RResp
deriving Repr

/-- The environment: outcome of the n-th remote call issued by the machine. -/
abbrev Env := Nat → Outcome

/-- setStatus (lines 38-44): update and emit only on change. -/
def setStatus (m : M) (next : Status) : M :=
  if m.ctrl.status = next then m
  else
    { m with
      ctrl := { m.ctrl with status := next },
      log := m.log ++ [Event.statusEv next] }

/-- hasPendingDrafts (lines 46-48). -/
def hasPendingDrafts (c : Ctrl) : Bool :=
  !c.drafts.isEmpty

/-- scheduleTypeSave (lines 50-72): replace the entity's draft wholesale, mark
    pending, and flag a trailing pass when a flush is in flight. Timer
    (re)arming has no state-machine content beyond scheduling. -/
def scheduleTypeSave (m : M) (id : EntityId) (data : Payload) (time : Nat)
    (base : String) : M :=
  if id = "" then m
  else
    let m1 :=
      { m with
        ctrl :=
          { m.ctrl with
            drafts := putDraft m.ctrl.drafts id
              { cvTypeId := id, data := data, localUpdatedAtMs := time,
                baseRemoteUpdatedAt := base, dirty := true } } }
    let m2 := setStatus m1 Status.pending
    if m2.ctrl.flushing then
      { m2 with ctrl := { m2.ctrl with needsTrailingFlush := true } }
    else m2

/-- persistDrafts (lines 270-284): write the normalized drafts and the current
    status to durable storage. -/
def persistDrafts (m : M) : M :=
  let clean := normalizeDraftMap m.ctrl.drafts
  { m with
    stored := some { drafts := clean, status := m.ctrl.status },
    log := m.log ++ [Event.persistEv clean m.ctrl.status] }

/-- absorbRemoteState (lines 91-97): prune drafts against the envelope; report
    saved when nothing is pending and no flush is running. -/
def absorbRemoteState (m : M) (remote : RemoteState) : M :=
  let m1 :=
    { m with
      ctrl := { m.ctrl with drafts := pruneDraftsAgainstRemote m.ctrl.drafts remote } }
  if !hasPendingDrafts m1.ctrl && !m1.ctrl.flushing then setStatus m1 Status.saved
  else m1

/-- Apply the edits the host interleaved during an await. -/
def applyEdits (m : M) (es : List EditReq) : M :=
  es.foldl (fun acc e => scheduleTypeSave acc e.id e.data e.time e.base) m

/-- One `await sendCommand(...)`: log the command, advance the call counter,
    let the scripted edits for this call land, and return the response. -/
def remoteCall (env : Env) (m : M) (c : Cmd) : M × RResp :=
  let o := env m.calls
  let m1 := { m with log := m.log ++ [Event.cmdEv c], calls := m.calls + 1 }
  (applyEdits m1 o.edits, o.resp)

/-- The success continuation of syncEntry (lines 210-222): remove the draft
    unless a strictly newer edit superseded it mid-call (then flag a trailing
    pass), and absorb a returned envelope. -/
def syncSuccess (m : M) (entry : Draft) (st : Option RemoteState) : M :=
  let m1 :=
    match lookupDraft m.ctrl.drafts entry.cvTypeId with
    | none =>
        { m with ctrl := { m.ctrl with drafts := deleteDraft m.ctrl.drafts entry.cvTypeId } }
    | some latest =>
        if latest.localUpdatedAtMs ≤ entry.localUpdatedAtMs then
          { m with ctrl := { m.ctrl with drafts := deleteDraft m.ctrl.drafts entry.cvTypeId } }
        else
          { m with ctrl := { m.ctrl with needsTrailingFlush := true } }
  match st with
  | some s => absorbRemoteState { m1 with log := m1.log ++ [Event.stateEv "sync" s] } s
  | none => m1

/-- The retried write after a conflict reload: `recoveredConflict` is already
    true, so any further rejection propagates (returns false = threw). -/
def syncRetry (env : Env) (m : M) (entry : Draft) : M × Bool :=
  match remoteCall env m (Cmd.update entry.cvTypeId entry.data) with
  | (m1, RResp.ok st) => (syncSuccess m1 entry st, true)
  | (m1, RResp.conflictE) => (m1, false)
  | (m1, RResp.failE) => (m1, false)

/-- syncEntry (lines 193-244): write the entry; on STATE_CONFLICT with no prior
    recovery, reload the remote envelope (observed via onState) and retry once;
    any other failure, or a failure of the reload itself, propagates. -/
def syncEntry (env : Env) (m : M) (entry : Draft) : M × Bool :=
  match remoteCall env m (Cmd.update entry.cvTypeId entry.data) with
  | (m1, RResp.ok st) => (syncSuccess m1 entry st, true)
  | (m1, RResp.conflictE) =>
      match remoteCall env m1 Cmd.load with
      | (m2, RResp.ok st) =>
          let m3 :=
            match st with
            | some s => { m2 with log := m2.log ++ [Event.stateEv "conflict-reload" s] }
            | none => m2
          syncRetry env m3 entry
      | (m2, RResp.conflictE) => (m2, false)
      | (m2, RResp.failE) => (m2, false)
  | (m1, RResp.failE) => (m1, false)

/-- Stable insertion step for the drain ordering. -/
def insertByTime (d : Draft) : List Draft → List Draft
  | [] => [d]
  | e :: rest =>
      if e.localUpdatedAtMs ≤ d.localUpdatedAtMs then e :: insertByTime d rest
      else d :: e :: rest

/-- The drain ordering (line 186): `Object.values(drafts)` sorted stably by
    localUpdatedAtMs ascending. -/
def sortByTime (l : List Draft) : List Draft :=
  l.foldl (fun acc d => insertByTime d acc) []

/-- Sequential per-entity writes of one drain pass; a throw aborts the rest. -/
def syncList (env : Env) : M → List Draft → M × Bool
  | m, [] => (m, true)
  | m, e :: rest =>
      match syncEntry env m e with
      | (m1, true) => syncList env m1 rest
      | (m1, false) => (m1, false)

/-- syncDirtyDrafts (lines 185-191): snapshot, order, and write sequentially. -/
def syncDirtyDrafts (env : Env) (m : M) : M × Bool :=
  syncList env m (sortByTime (m.ctrl.drafts.map Prod.snd))

/-- The do/while trailing-pass loop of performFlush (lines 165-168), with fuel
    bounding the number of drain passes (none = fuel exhausted, a modelling
    artifact never reached by the theorems below). -/
def drainLoop (env : Env) : Nat → M → Option (M × Bool)
  | 0, _ => none
  | fuel + 1, m =>
      let m1 := { m with ctrl := { m.ctrl with needsTrailingFlush := false } }
      match syncDirtyDrafts env m1 with
      | (m2, false) => some (m2, false)
      | (m2, true) =>
          if m2.ctrl.needsTrailingFlush then drainLoop env fuel m2
          else some (m2, true)

/-- performFlush (lines 148-183). -/
def performFlush (env : Env) (fuel : Nat) (m : M) : Option M :=
  if m.ctrl.flushing then
    some { m with ctrl := { m.ctrl with needsTrailingFlush := true } }
  else if hasPendingDrafts m.ctrl then
    let m1 := { m with ctrl := { m.ctrl with flushing := true } }
    let m2 := setStatus m1 Status.saving
    match drainLoop env fuel m2 with
    | none => none
    | some (m3, ok) =>
        let m4 :=
          if ok then
            if hasPendingDrafts m3.ctrl then setStatus m3 Status.pending
            else setStatus m3 Status.saved
          else
            let me := setStatus m3 Status.error
            { me with log := me.log ++ [Event.errorEv] }
        let m5 := { m4 with ctrl := { m4.ctrl with flushing := false } }
        some (persistDrafts m5)
  else
    some (if m.ctrl.status = Status.error then m else setStatus m Status.saved)

/-- The value `flush` resolves with (lines 105 and 111). -/
structure FlushResult where
  ok : Bool
  reason : Option String
  status : Status
deriving DecidableEq, Repr

/-- flush (lines 103-112): refuse after destroy; otherwise persist, run
    performFlush, and report ok unless the status ended at error. -/
def flush (env : Env) (fuel : Nat) (m : M) : Option (M × FlushResult) :=
  if m.ctrl.destroyed then
    some (m, { ok := false, reason := some "destroyed", status := m.ctrl.status })
  else
    let m1 := persistDrafts m
    match performFlush env fuel m1 with
    | none => none
    | some m2 =>
        some (m2,
          { ok := if m2.ctrl.status = Status.error then false else true,
            reason := none, status := m2.ctrl.status })

/-- restoreDrafts (lines 74-89): load and normalize the persisted drafts, prune
    them against the fresh remote envelope, overlay them for display, derive the
    status, and persist the cleaned set. Returns the merged envelope. -/
def restoreDrafts (m : M) (remote : RemoteState) : M × RemoteState :=
  let loaded :=
    match m.stored with
    | some p => normalizeDraftMap p.drafts
    | none => []
  let pruned := pruneDraftsAgainstRemote loaded remote
  let m1 := { m with ctrl := { m.ctrl with drafts := pruned } }
  let merged := applyDraftsToRemoteState remote pruned
  let m2 :=
    if hasPendingDrafts m1.ctrl then setStatus m1 Status.pending
    else setStatus m1 Status.saved
  (persistDrafts m2, merged)

/-- destroy (lines 114-118): set the flag and cancel the timers. -/
def destroy (m : M) : M :=
  { m with ctrl := { m.ctrl with destroyed := true } }

/-- A freshly created controller (lines 30-36) over empty storage. -/
def initM : M :=
  { ctrl :=
      { drafts := [], status := Status.saved, flushing := false,
        needsTrailingFlush := false, destroyed := false },
    stored := none, log := [], calls := 0 }

/-- The remote commands among a list of events, in order. -/
def cmdEvents : List Event → List Cmd
  | [] => []
  | Event.cmdEv c :: rest => c :: cmdEvents rest
  | _ :: rest => cmdEvents rest

/-- The status-callback values among a list of events, in order. -/
def statusEvents : List Event → List Status
  | [] => []
  | Event.statusEv s :: rest => s :: statusEvents rest
  | _ :: rest => statusEvents rest

/-- Does the envelope (if any) still list the entity? Matches the pruning test
    `knownTypeIds.has(cvTypeId)` applied by absorbRemoteState. -/
def stateKeepsId : Option RemoteState → EntityId → Prop
  | none, _ => True
  | some s, id =>
      match s.cvTypes with
      | none => True
      | some ts => hasId ts id = true

@[simp]
theorem cmdEvents_append (l l' : List Event) :
    cmdEvents (l ++ l') = cmdEvents l ++ cmdEvents l' := by
  induction l with
  | nil => rfl
  | cons e rest ih => cases e <;> simp [cmdEvents, ih]

@[simp]
theorem statusEvents_append (l l' : List Event) :
    statusEvents (l ++ l') = statusEvents l ++ statusEvents l' := by
  induction l with
  | nil => rfl
  | cons e rest ih => cases e <;> simp [statusEvents, ih]

@[simp]
theorem persistDrafts_ctrl (m : M) : (persistDrafts m).ctrl = m.ctrl := rfl

@[simp]
theorem persistDrafts_stored (m : M) :
    (persistDrafts m).stored =
      some { drafts := normalizeDraftMap m.ctrl.drafts, status := m.ctrl.status } := rfl

@[simp]
theorem setStatus_status (m : M) (s : Status) : (setStatus m s).ctrl.status = s := by
  unfold setStatus
  split <;> simp_all

@[simp]
theorem setStatus_drafts (m : M) (s : Status) :
    (setStatus m s).ctrl.drafts = m.ctrl.drafts := by
  unfold setStatus
  split <;> rfl

@[simp]
theorem setStatus_flushing (m : M) (s : Status) :
    (setStatus m s).ctrl.flushing = m.ctrl.flushing := by
  unfold setStatus
  split <;> rfl

@[simp]
theorem setStatus_needs (m : M) (s : Status) :
    (setStatus m s).ctrl.needsTrailingFlush = m.ctrl.needsTrailingFlush := by
  unfold setStatus
  split <;> rfl

@[simp]
theorem setStatus_destroyed (m : M) (s : Status) :
    (setStatus m s).ctrl.destroyed = m.ctrl.destroyed := by
  unfold setStatus
  split <;> rfl

@[simp]
theorem setStatus_stored (m : M) (s : Status) : (setStatus m s).stored = m.stored := by
  unfold setStatus
  split <;> rfl

@[simp]
theorem setStatus_calls (m : M) (s : Status) : (setStatus m s).calls = m.calls := by
  unfold setStatus
  split <;> rfl

theorem cmdEvents_setStatus (m : M) (s : Status) :
    cmdEvents (setStatus m s).log = cmdEvents m.log := by
  unfold setStatus
  split <;> simp [cmdEvents]

/-- C10: after destroy(), every flush call returns ok: false with reason
    "destroyed" and the unchanged status, leaving the whole machine (draft
    store, durable storage, event log, remote-call count) untouched: no remote
    command is issued and nothing is written. -/
theorem C10_flush_after_destroy (env : Env) (fuel : Nat) (m : M) :
    flush env fuel (destroy m) =
      some (destroy m,
        { ok := false, reason := some "destroyed", status := m.ctrl.status }) ∧
    (destroy m).ctrl.drafts = m.ctrl.drafts ∧
    (destroy m).ctrl.status = m.ctrl.status ∧
    (destroy m).stored = m.stored ∧
    (destroy m).log = m.log ∧
    (destroy m).calls = m.calls := by
  simp [flush, destroy]

theorem lookupDraft_deleteDraft (dm : DraftMap) (id : EntityId) :
    lookupDraft (deleteDraft dm id) id = none := by
  induction dm with
  | nil => rfl
  | cons p rest ih =>
      obtain ⟨k, d⟩ := p
      by_cases h : k = id
      · simp [deleteDraft, h, ih]
      · simp [deleteDraft, lookupDraft, h, ih]

theorem lookupDraft_filter_none {dm : DraftMap} {id : EntityId}
    (f : EntityId × Draft → Bool) (h : lookupDraft dm id = none) :
    lookupDraft (dm.filter f) id = none := by
  induction dm with
  | nil => rfl
  | cons p rest ih =>
      obtain ⟨k, d⟩ := p
      by_cases hk : k = id
      · simp [lookupDraft, hk] at h
      · simp only [lookupDraft, if_neg hk] at h
        by_cases hf : f (k, d) = true <;>
          simp [List.filter, hf, lookupDraft, hk, ih h]

theorem lookupDraft_prune_none {dm : DraftMap} {id : EntityId}
    (remote : RemoteState) (h : lookupDraft dm id = none) :
    lookupDraft (pruneDraftsAgainstRemote dm remote) id = none := by
  unfold pruneDraftsAgainstRemote
  match remote.cvTypes with
  | none => exact h
  | some types => exact lookupDraft_filter_none _ h

theorem lookupDraft_prune_kept {dm : DraftMap} {id : EntityId} {types : List CvType}
    (hk : hasId types id = true) :
    lookupDraft (pruneDraftsAgainstRemote dm ⟨some types⟩) id = lookupDraft dm id := by
  induction dm with
  | nil => rfl
  | cons p rest ih =>
      obtain ⟨k, d⟩ := p
      by_cases hkid : k = id
      · subst hkid
        simp [pruneDraftsAgainstRemote, List.filter, hk, lookupDraft] at ih ⊢
      · by_cases hf : hasId types k = true <;>
          simp_all [pruneDraftsAgainstRemote, List.filter, hf, lookupDraft, hkid]

theorem absorb_drafts (m : M) (s : RemoteState) :
    (absorbRemoteState m s).ctrl.drafts = pruneDraftsAgainstRemote m.ctrl.drafts s := by
  unfold absorbRemoteState
  dsimp only
  split <;> simp

theorem absorb_needs (m : M) (s : RemoteState) :
    (absorbRemoteState m s).ctrl.needsTrailingFlush = m.ctrl.needsTrailingFlush := by
  unfold absorbRemoteState
  dsimp only
  split <;> simp

theorem absorb_lookup_none {m : M} {s : RemoteState} {id : EntityId}
    (h : lookupDraft m.ctrl.drafts id = none) :
    lookupDraft (absorbRemoteState m s).ctrl.drafts id = none := by
  rw [absorb_drafts]
  exact lookupDraft_prune_none _ h

theorem absorb_lookup_kept {m : M} {s : RemoteState} {id : EntityId}
    (h : stateKeepsId (some s) id) :
    lookupDraft (absorbRemoteState m s).ctrl.drafts id = lookupDraft m.ctrl.drafts id := by
  rw [absorb_drafts]
  obtain ⟨cv⟩ := s
  cases cv with
  | none => rfl
  | some types =>
      have h2 : hasId types id = true := h
      exact lookupDraft_prune_kept h2

/-- C6: a flush that starts with an empty draft store (no flush in flight, not
    destroyed) issues no remote command, keeps the draft store empty, maps
    status error to error and anything else to saved; in particular starting at
    saved it stays saved and the call reports ok. -/
theorem C6_empty_flush_noop (env : Env) (fuel : Nat) (m : M)
    (hd : m.ctrl.drafts = []) (hf : m.ctrl.flushing = false)
    (hx : m.ctrl.destroyed = false) :
    (flush env fuel m).map
        (fun q => (cmdEvents q.1.log, q.1.calls, q.1.ctrl.drafts, q.1.ctrl.status, q.2.ok))
      = some (cmdEvents m.log, m.calls, [],
          if m.ctrl.status = Status.error then Status.error else Status.saved,
          if m.ctrl.status = Status.error then false else true) := by
  cases hst : m.ctrl.status <;>
    simp [flush, performFlush, hx, hf, hd, hst, hasPendingDrafts, persistDrafts,
      setStatus, cmdEvents]

/-- A closed instance of the C6 theorem at a fresh controller with status
    saved: the flush issues no command and reports saved/ok. -/
theorem C6_empty_flush_noop_witness :
    (flush (fun _ => { edits := [], resp := RResp.ok none }) 1 initM).map
        (fun q => (cmdEvents q.1.log, q.1.calls, q.1.ctrl.drafts, q.1.ctrl.status, q.2.ok))
      = some ([], 0, [], Status.saved, true) := by
  have h := C6_empty_flush_noop (fun _ => { edits := [], resp := RResp.ok none }) 1 initM
    rfl rfl rfl
  simpa [initM, cmdEvents] using h

/-- C5: after a successful entity write during a drain, the success handler
    removes the draft exactly when no strictly newer local edit arrived for that
    entity during the network call; a strictly newer draft is kept (provided the
    absorbed envelope, if any, still lists the entity) and the trailing-pass
    flag is raised, so the newer edit is not discarded. -/
theorem C5_remove_only_if_not_newer (m : M) (entry : Draft) (st : Option RemoteState) :
    ((lookupDraft m.ctrl.drafts entry.cvTypeId = none ∨
        ∃ latest, lookupDraft m.ctrl.drafts entry.cvTypeId = some latest ∧
          latest.localUpdatedAtMs ≤ entry.localUpdatedAtMs) →
      lookupDraft (syncSuccess m entry st).ctrl.drafts entry.cvTypeId = none) ∧
    (∀ latest, lookupDraft m.ctrl.drafts entry.cvTypeId = some latest →
      entry.localUpdatedAtMs < latest.localUpdatedAtMs →
      stateKeepsId st entry.cvTypeId →
      lookupDraft (syncSuccess m entry st).ctrl.drafts entry.cvTypeId = some latest ∧
      (syncSuccess m entry st).ctrl.needsTrailingFlush = true) := by
  have hdel := lookupDraft_deleteDraft m.ctrl.drafts entry.cvTypeId
  constructor
  · intro h
    rcases h with h | ⟨latest, hl, hle⟩
    · simp only [syncSuccess, h]
      cases st with
      | none => exact hdel
      | some s => exact absorb_lookup_none hdel
    · simp only [syncSuccess, hl, if_pos hle]
      cases st with
      | none => exact hdel
      | some s => exact absorb_lookup_none hdel
  · intro latest hl hlt hkeep
    have hnle : ¬ latest.localUpdatedAtMs ≤ entry.localUpdatedAtMs := not_le.mpr hlt
    simp only [syncSuccess, hl, if_neg hnle]
    cases st with
    | none => exact ⟨hl, rfl⟩
    | some s => exact ⟨by rw [absorb_lookup_kept hkeep]; exact hl, by rw [absorb_needs]⟩

/-- A closed instance of the C5 theorem: an unsuperseded draft is removed, and
    a strictly newer one is kept with the trailing flag raised. -/
theorem C5_remove_only_if_not_newer_witness :
    lookupDraft
      (syncSuccess
        { ctrl :=
            { drafts := [("A", ⟨"A", 1, 10, "", true⟩)], status := Status.saving,
              flushing := true, needsTrailingFlush := false, destroyed := false },
          stored := none, log := [], calls := 1 }
        ⟨"A", 1, 10, "", true⟩ none).ctrl.drafts "A" = none ∧
    (lookupDraft
      (syncSuccess
        { ctrl :=
            { drafts := [("A", ⟨"A", 5, 30, "", true⟩)], status := Status.saving,
              flushing := true, needsTrailingFlush := false, destroyed := false },
          stored := none, log := [], calls := 1 }
        ⟨"A", 1, 10, "", true⟩ none).ctrl.drafts "A" = some ⟨"A", 5, 30, "", true⟩ ∧
      (syncSuccess
        { ctrl :=
            { drafts := [("A", ⟨"A", 5, 30, "", true⟩)], status := Status.saving,
              flushing := true, needsTrailingFlush := false, destroyed := false },
          stored := none, log := [], calls := 1 }
        ⟨"A", 1, 10, "", true⟩ none).ctrl.needsTrailingFlush = true) := by
  refine ⟨(C5_remove_only_if_not_newer _ _ _).1 (Or.inr ⟨⟨"A", 1, 10, "", true⟩, by decide⟩), ?_⟩
  exact (C5_remove_only_if_not_newer _ _ _).2 ⟨"A", 5, 30, "", true⟩ (by decide) (by decide)
    trivial

theorem lookupDraft_prune_dropped {types : List CvType} {id : EntityId}
    (dm : DraftMap) (h : hasId types id = false) :
    lookupDraft (pruneDraftsAgainstRemote dm ⟨some types⟩) id = none := by
  induction dm with
  | nil => rfl
  | cons p rest ih =>
      obtain ⟨k, d⟩ := p
      by_cases hk : k = id
      · subst hk
        simp [pruneDraftsAgainstRemote, List.filter, h] at ih ⊢
        exact ih
      · by_cases hf : hasId types k = true <;>
          simp_all [pruneDraftsAgainstRemote, List.filter, hf, lookupDraft, hk]

/-- C9: restoring persisted drafts into a controller against a fresh remote
    envelope keeps exactly the drafts whose entity the envelope still lists
    (others are discarded), overlays the kept draft payload onto the merged
    envelope returned for display, and leaves the controller pending. -/
theorem C9_restore_round_trip (S : DraftMap) (st0 : Status) (types : List CvType)
    (e : EntityId) (d : Draft) (m : M)
    (hs : m.stored = some ⟨S, st0⟩)
    (hd : lookupDraft (normalizeDraftMap S) e = some d)
    (he : hasId types e = true) :
    (restoreDrafts m ⟨some types⟩).1.ctrl.status = Status.pending ∧
    lookupDraft (restoreDrafts m ⟨some types⟩).1.ctrl.drafts e = some d ∧
    (∃ ts, (restoreDrafts m ⟨some types⟩).2.cvTypes = some ts ∧
      ∀ t ∈ ts, t.id = e → t.data = d.data) ∧
    (∀ e2, hasId types e2 = false →
      lookupDraft (restoreDrafts m ⟨some types⟩).1.ctrl.drafts e2 = none) := by
  have hp : lookupDraft (pruneDraftsAgainstRemote (normalizeDraftMap S) ⟨some types⟩) e
      = some d := (lookupDraft_prune_kept he).trans hd
  have hne : (pruneDraftsAgainstRemote (normalizeDraftMap S) ⟨some types⟩).isEmpty = false := by
    cases h0 : pruneDraftsAgainstRemote (normalizeDraftMap S) ⟨some types⟩ with
    | nil => rw [h0] at hp; simp [lookupDraft] at hp
    | cons a l => rfl
  unfold restoreDrafts
  rw [hs]
  dsimp only
  refine ⟨?_, ?_, ?_, ?_⟩
  · simp [hasPendingDrafts, hne]
  · simp [hasPendingDrafts, hne, hp]
  · refine ⟨_, rfl, ?_⟩
    intro t ht hid
    rcases List.mem_map.mp ht with ⟨t0, ht0, rfl⟩
    revert hid
    cases hl : lookupDraft (pruneDraftsAgainstRemote (normalizeDraftMap S) ⟨some types⟩)
        t0.id with
    | none =>
        intro hid
        simp only at hid
        rw [hid] at hl
        rw [hl] at hp
        exact absurd hp (by simp)
    | some dx =>
        intro hid
        simp only at hid ⊢
        rw [hid] at hl
        rw [hl] at hp
        injection hp with hpd
        rw [hpd]
  · intro e2 h2
    simp [hasPendingDrafts, hne, lookupDraft_prune_dropped _ h2]


/-- A closed instance of the C9 theorem: a persisted draft for entity A whose
    payload differs from the remote copy survives the restore with its local
    payload and pending status; a draft for an entity the remote no longer
    lists would be discarded. -/
theorem C9_restore_round_trip_witness :
    (restoreDrafts
        { ctrl :=
            { drafts := [], status := Status.saved, flushing := false,
              needsTrailingFlush := false, destroyed := false },
          stored := some ⟨[("A", ⟨"A", 7, 5, "", true⟩)], Status.pending⟩,
          log := [], calls := 0 }
        ⟨some [⟨"A", 1⟩, ⟨"C", 3⟩]⟩).1.ctrl.status = Status.pending ∧
    lookupDraft
      (restoreDrafts
        { ctrl :=
            { drafts := [], status := Status.saved, flushing := false,
              needsTrailingFlush := false, destroyed := false },
          stored := some ⟨[("A", ⟨"A", 7, 5, "", true⟩)], Status.pending⟩,
          log := [], calls := 0 }
        ⟨some [⟨"A", 1⟩, ⟨"C", 3⟩]⟩).1.ctrl.drafts "A" = some ⟨"A", 7, 5, "", true⟩ ∧
    (∃ ts,
      (restoreDrafts
        { ctrl :=
            { drafts := [], status := Status.saved, flushing := false,
              needsTrailingFlush := false, destroyed := false },
          stored := some ⟨[("A", ⟨"A", 7, 5, "", true⟩)], Status.pending⟩,
          log := [], calls := 0 }
        ⟨some [⟨"A", 1⟩, ⟨"C", 3⟩]⟩).2.cvTypes = some ts ∧
      ∀ t ∈ ts, t.id = "A" → t.data = 7) ∧
    (∀ e2, hasId [⟨"A", 1⟩, ⟨"C", 3⟩] e2 = false →
      lookupDraft
        (restoreDrafts
          { ctrl :=
              { drafts := [], status := Status.saved, flushing := false,
                needsTrailingFlush := false, destroyed := false },
            stored := some ⟨[("A", ⟨"A", 7, 5, "", true⟩)], Status.pending⟩,
            log := [], calls := 0 }
          ⟨some [⟨"A", 1⟩, ⟨"C", 3⟩]⟩).1.ctrl.drafts e2 = none) :=
  C9_restore_round_trip [("A", ⟨"A", 7, 5, "", true⟩)] Status.pending
    [⟨"A", 1⟩, ⟨"C", 3⟩] "A" ⟨"A", 7, 5, "", true⟩ _ rfl (by decide) (by decide)

theorem lookupDraft_putDraft_isSome (dm : DraftMap) (id id2 : EntityId) (d : Draft)
    (h : (lookupDraft dm id).isSome = true) :
    (lookupDraft (putDraft dm id2 d) id).isSome = true := by
  induction dm with
  | nil => simp [lookupDraft] at h
  | cons p rest ih =>
      obtain ⟨k, e⟩ := p
      by_cases hk : k = id2
      · subst hk
        by_cases hki : k = id <;> simp_all [putDraft, lookupDraft, hki]
      · by_cases hki : k = id <;> simp_all [putDraft, lookupDraft, hk, hki]

theorem scheduleTypeSave_drafts (m : M) (id2 : EntityId) (p : Payload) (t : Nat)
    (b : String) :
    (scheduleTypeSave m id2 p t b).ctrl.drafts =
      if id2 = "" then m.ctrl.drafts
      else putDraft m.ctrl.drafts id2 ⟨id2, p, t, b, true⟩ := by
  unfold scheduleTypeSave
  by_cases h2 : id2 = ""
  · simp [h2]
  · simp only [h2, if_false]
    split <;> simp

theorem scheduleTypeSave_flushing (m : M) (id2 : EntityId) (p : Payload) (t : Nat)
    (b : String) :
    (scheduleTypeSave m id2 p t b).ctrl.flushing = m.ctrl.flushing := by
  unfold scheduleTypeSave
  by_cases h2 : id2 = ""
  · simp [h2]
  · simp only [h2, if_false]
    split <;> simp

theorem scheduleTypeSave_destroyed (m : M) (id2 : EntityId) (p : Payload) (t : Nat)
    (b : String) :
    (scheduleTypeSave m id2 p t b).ctrl.destroyed = m.ctrl.destroyed := by
  unfold scheduleTypeSave
  by_cases h2 : id2 = ""
  · simp [h2]
  · simp only [h2, if_false]
    split <;> simp

theorem scheduleTypeSave_stored (m : M) (id2 : EntityId) (p : Payload) (t : Nat)
    (b : String) :
    (scheduleTypeSave m id2 p t b).stored = m.stored := by
  unfold scheduleTypeSave
  by_cases h2 : id2 = ""
  · simp [h2]
  · simp only [h2, if_false]
    split <;> simp

theorem scheduleTypeSave_presence (m : M) (id2 : EntityId) (p : Payload) (t : Nat)
    (b : String) (id : EntityId)
    (h : (lookupDraft m.ctrl.drafts id).isSome = true) :
    (lookupDraft (scheduleTypeSave m id2 p t b).ctrl.drafts id).isSome = true := by
  rw [scheduleTypeSave_drafts]
  split
  · exact h
  · exact lookupDraft_putDraft_isSome _ _ _ _ h

theorem applyEdits_presence (es : List EditReq) (m : M) (id : EntityId)
    (h : (lookupDraft m.ctrl.drafts id).isSome = true) :
    (lookupDraft (applyEdits m es).ctrl.drafts id).isSome = true := by
  induction es generalizing m with
  | nil => exact h
  | cons e rest ih =>
      exact ih _ (scheduleTypeSave_presence m e.id e.data e.time e.base id h)

theorem remoteCall_presence {env : Env} {m m2 : M} {c : Cmd} {resp : RResp}
    (h : remoteCall env m c = (m2, resp)) (id : EntityId)
    (hp : (lookupDraft m.ctrl.drafts id).isSome = true) :
    (lookupDraft m2.ctrl.drafts id).isSome = true := by
  have hm : m2 = applyEdits
      { m with log := m.log ++ [Event.cmdEv c], calls := m.calls + 1 }
      (env m.calls).edits := congrArg Prod.fst h.symm
  subst hm
  exact applyEdits_presence _ _ _ hp

theorem remoteCall_ctrl {env : Env} {m m2 : M} {c : Cmd} {resp : RResp}
    (h : remoteCall env m c = (m2, resp)) (hne : ∀ n, (env n).edits = []) :
    m2.ctrl = m.ctrl := by
  have hm : m2 = applyEdits
      { m with log := m.log ++ [Event.cmdEv c], calls := m.calls + 1 }
      (env m.calls).edits := congrArg Prod.fst h.symm
  rw [hne m.calls] at hm
  subst hm
  rfl

theorem syncRetry_throw (env : Env) (m : M) (entry : Draft) (m2 : M)
    (h : syncRetry env m entry = (m2, false)) :
    (∀ id, (lookupDraft m.ctrl.drafts id).isSome = true →
      (lookupDraft m2.ctrl.drafts id).isSome = true) ∧
    ((∀ n, (env n).edits = []) → m2.ctrl = m.ctrl) := by
  unfold syncRetry at h
  split at h
  · simp at h
  · obtain ⟨hm, -⟩ := Prod.mk.injEq .. ▸ h
    subst hm
    next heq =>
      exact ⟨fun id hp => remoteCall_presence heq id hp, fun hne => remoteCall_ctrl heq hne⟩
  · obtain ⟨hm, -⟩ := Prod.mk.injEq .. ▸ h
    subst hm
    next heq =>
      exact ⟨fun id hp => remoteCall_presence heq id hp, fun hne => remoteCall_ctrl heq hne⟩

theorem syncEntry_throw (env : Env) (m : M) (entry : Draft) (m2 : M)
    (h : syncEntry env m entry = (m2, false)) :
    (∀ id, (lookupDraft m.ctrl.drafts id).isSome = true →
      (lookupDraft m2.ctrl.drafts id).isSome = true) ∧
    ((∀ n, (env n).edits = []) → m2.ctrl = m.ctrl) := by
  unfold syncEntry at h
  split at h
  · simp at h
  · next m1 heq =>
      split at h
      · next m2x st heq2 =>
          cases st with
          | none =>
              dsimp only at h
              obtain ⟨hpres, hc⟩ := syncRetry_throw env m2x entry m2 h
              exact ⟨fun id hp => hpres id
                  (remoteCall_presence heq2 id (remoteCall_presence heq id hp)),
                fun hne => (hc hne).trans
                  ((remoteCall_ctrl heq2 hne).trans (remoteCall_ctrl heq hne))⟩
          | some s =>
              dsimp only at h
              obtain ⟨hpres, hc⟩ := syncRetry_throw env
                { m2x with log := m2x.log ++ [Event.stateEv "conflict-reload" s] }
                entry m2 h
              exact ⟨fun id hp => hpres id
                  (remoteCall_presence heq2 id (remoteCall_presence heq id hp)),
                fun hne => (hc hne).trans
                  ((remoteCall_ctrl heq2 hne).trans (remoteCall_ctrl heq hne))⟩
      · next m2x heq2 =>
          obtain ⟨hm, -⟩ := Prod.mk.injEq .. ▸ h
          subst hm
          exact ⟨fun id hp => remoteCall_presence heq2 id (remoteCall_presence heq id hp),
            fun hne => (remoteCall_ctrl heq2 hne).trans (remoteCall_ctrl heq hne)⟩
      · next m2x heq2 =>
          obtain ⟨hm, -⟩ := Prod.mk.injEq .. ▸ h
          subst hm
          exact ⟨fun id hp => remoteCall_presence heq2 id (remoteCall_presence heq id hp),
            fun hne => (remoteCall_ctrl heq2 hne).trans (remoteCall_ctrl heq hne)⟩
  · next m1 heq =>
      obtain ⟨hm, -⟩ := Prod.mk.injEq .. ▸ h
      subst hm
      exact ⟨fun id hp => remoteCall_presence heq id hp, fun hne => remoteCall_ctrl heq hne⟩

theorem performFlush_stored (env : Env) (fuel : Nat) (m1 mp : M)
    (h : performFlush env fuel m1 = some mp)
    (hs : m1.stored = some ⟨normalizeDraftMap m1.ctrl.drafts, m1.ctrl.status⟩) :
    mp.ctrl.status ≠ Status.error ∨
    mp.stored = some ⟨normalizeDraftMap mp.ctrl.drafts, mp.ctrl.status⟩ := by
  unfold performFlush at h
  split at h
  · right
    obtain rfl := (Option.some.inj h).symm
    exact hs
  · split at h
    · dsimp only at h
      split at h
      · cases h
      · next m3 ok heq =>
          right
          obtain rfl := (Option.some.inj h).symm
          simp
    · split at h
      · right
        obtain rfl := (Option.some.inj h).symm
        exact hs
      · left
        obtain rfl := (Option.some.inj h).symm
        simp

theorem flush_stored_on_error (env : Env) (fuel : Nat) (m m2 : M) (r : FlushResult)
    (hx : m.ctrl.destroyed = false)
    (h : flush env fuel m = some (m2, r)) (he : m2.ctrl.status = Status.error) :
    m2.stored = some ⟨normalizeDraftMap m2.ctrl.drafts, Status.error⟩ ∧ r.ok = false := by
  unfold flush at h
  simp only [hx, Bool.false_eq_true, if_false] at h
  split at h
  · cases h
  · next mp heq =>
      have hpair := Option.some.inj h
      have hm2 : mp = m2 := congrArg Prod.fst hpair
      have hr := congrArg Prod.snd hpair
      dsimp only at hr
      subst hm2
      rcases performFlush_stored env fuel (persistDrafts m) mp heq (by simp) with hne | hst
      · exact absurd he hne
      · refine ⟨he ▸ hst, ?_⟩
        rw [← hr]
        simp [he]

/-- C8: a flush attempt that ends with status error leaves durable storage
    holding exactly the surviving (normalized) draft set together with the
    error status; and a failing entity write never removes the entity's draft
    from the store -- absent interleaved edits the draft map is bit-for-bit
    unchanged, and with them the entity keeps its latest edited draft. -/
theorem C8_error_retains_and_persists :
    (∀ (env : Env) (fuel : Nat) (m m2 : M) (r : FlushResult),
      m.ctrl.destroyed = false → flush env fuel m = some (m2, r) →
      m2.ctrl.status = Status.error →
      m2.stored = some ⟨normalizeDraftMap m2.ctrl.drafts, Status.error⟩ ∧ r.ok = false) ∧
    (∀ (env : Env) (m : M) (entry : Draft) (m2 : M),
      syncEntry env m entry = (m2, false) →
      (∀ id, (lookupDraft m.ctrl.drafts id).isSome = true →
        (lookupDraft m2.ctrl.drafts id).isSome = true) ∧
      ((∀ n, (env n).edits = []) → m2.ctrl.drafts = m.ctrl.drafts)) :=
  ⟨fun env fuel m m2 r hx h he => flush_stored_on_error env fuel m m2 r hx h he,
   fun env m entry m2 h =>
     ⟨(syncEntry_throw env m entry m2 h).1,
      fun hne => congrArg Ctrl.drafts ((syncEntry_throw env m entry m2 h).2 hne)⟩⟩

/-- A closed instance of the C8 theorem: a write that fails outright leaves the
    edited draft exactly in place in the draft store. -/
theorem C8_error_retains_and_persists_witness :
    (lookupDraft
      ({ ctrl :=
          { drafts := [("A", ⟨"A", 1, 10, "", true⟩)], status := Status.saving,
            flushing := true, needsTrailingFlush := false, destroyed := false },
         stored := none, log := [Event.cmdEv (Cmd.update "A" 1)],
         calls := 1 } : M).ctrl.drafts "A").isSome = true ∧
    ({ ctrl :=
        { drafts := [("A", ⟨"A", 1, 10, "", true⟩)], status := Status.saving,
          flushing := true, needsTrailingFlush := false, destroyed := false },
       stored := none, log := [Event.cmdEv (Cmd.update "A" 1)],
       calls := 1 } : M).ctrl.drafts =
      ({ ctrl :=
          { drafts := [("A", ⟨"A", 1, 10, "", true⟩)], status := Status.saving,
            flushing := true, needsTrailingFlush := false, destroyed := false },
         stored := none, log := [], calls := 0 } : M).ctrl.drafts := by
  have h2 := C8_error_retains_and_persists.2 (fun _ => ⟨[], RResp.failE⟩)
    { ctrl :=
        { drafts := [("A", ⟨"A", 1, 10, "", true⟩)], status := Status.saving,
          flushing := true, needsTrailingFlush := false, destroyed := false },
      stored := none, log := [], calls := 0 }
    ⟨"A", 1, 10, "", true⟩
    { ctrl :=
        { drafts := [("A", ⟨"A", 1, 10, "", true⟩)], status := Status.saving,
          flushing := true, needsTrailingFlush := false, destroyed := false },
      stored := none, log := [Event.cmdEv (Cmd.update "A" 1)], calls := 1 }
    (by decide)
  exact ⟨h2.1 "A" (by decide), h2.2 (fun n => rfl)⟩

/-- C7: an edit followed by a fully successful flush makes the status callback
    fire exactly the sequence pending, saving, saved, in that order with
    nothing skipped, reordered, or repeated, ending at saved. -/
theorem C7_status_sequence (a : EntityId) (p : Payload) (t : Nat) (ha : a ≠ "") :
    ((flush (fun _ => { edits := [], resp := RResp.ok none }) 1
        (scheduleTypeSave initM a p t "")).map
      fun q => (statusEvents q.1.log, q.1.ctrl.status))
    = some ([Status.pending, Status.saving, Status.saved], Status.saved) := by
  simp [flush, performFlush, drainLoop, syncDirtyDrafts, syncList, syncEntry,
    remoteCall, applyEdits, syncSuccess, scheduleTypeSave, initM, setStatus,
    putDraft, lookupDraft, deleteDraft, persistDrafts, normalizeDraftMap,
    hasPendingDrafts, sortByTime, insertByTime, statusEvents, ha]


theorem editStep_stable (a : EntityId) (ha : a ≠ "") (m : M) (d : Draft)
    (pt : Payload × Nat)
    (hm : m.ctrl = ⟨[(a, d)], Status.pending, false, false, false⟩) :
    scheduleTypeSave m a pt.1 pt.2 "" =
      { m with ctrl := ⟨[(a, ⟨a, pt.1, pt.2, "", true⟩)], Status.pending,
          false, false, false⟩ } := by
  unfold scheduleTypeSave
  simp [ha, hm, putDraft, setStatus]

theorem foldl_edits (a : EntityId) (ha : a ≠ "") :
    ∀ (es : List (Payload × Nat)) (pt0 : Payload × Nat) (m : M),
    m.ctrl = ⟨[(a, ⟨a, pt0.1, pt0.2, "", true⟩)], Status.pending, false, false, false⟩ →
    es.foldl (fun acc pt => scheduleTypeSave acc a pt.1 pt.2 "") m =
      { m with ctrl := ⟨[(a, ⟨a, (es.foldl (fun _ pt => pt) pt0).1,
          (es.foldl (fun _ pt => pt) pt0).2, "", true⟩)], Status.pending,
          false, false, false⟩ } := by
  intro es
  induction es with
  | nil =>
      intro pt0 m hm
      simp only [List.foldl_nil]
      rw [← hm]
  | cons pt rest ih =>
      intro pt0 m hm
      simp only [List.foldl_cons]
      rw [editStep_stable a ha m _ pt hm]
      rw [ih pt _ rfl]

theorem foldl_last (e0 : Payload × Nat) (es : List (Payload × Nat)) :
    es.foldl (fun _ pt => pt) e0 = (e0 :: es).getLast (List.cons_ne_nil e0 es) := by
  induction es generalizing e0 with
  | nil => rfl
  | cons e1 rest ih =>
      simp only [List.foldl_cons]
      rw [ih e1]
      rw [List.getLast_cons (List.cons_ne_nil e1 rest)]

/-- C3: any nonempty burst of edits to one entity inside a single idle window
    coalesces: the flush that follows issues exactly one remote write for the
    entity, carrying the payload of the last edit, and ends saved with an empty
    draft store. -/
theorem C3_coalescing (a : EntityId) (e0 : Payload × Nat) (es : List (Payload × Nat))
    (ha : a ≠ "") :
    ((flush (fun _ => { edits := [], resp := RResp.ok none }) 1
        ((e0 :: es).foldl (fun acc pt => scheduleTypeSave acc a pt.1 pt.2 "") initM)).map
      fun q => (cmdEvents q.1.log, q.1.ctrl.drafts, q.1.ctrl.status, q.2.ok))
    = some ([Cmd.update a ((e0 :: es).getLast (List.cons_ne_nil e0 es)).1],
        [], Status.saved, true) := by
  rw [List.foldl_cons]
  have h0 : (scheduleTypeSave initM a e0.1 e0.2 "").ctrl =
      ⟨[(a, ⟨a, e0.1, e0.2, "", true⟩)], Status.pending, false, false, false⟩ := by
    simp [scheduleTypeSave, initM, ha, putDraft, setStatus]
  rw [foldl_edits a ha es e0 _ h0]
  rw [← foldl_last e0 es]
  have hlog : (scheduleTypeSave initM a e0.1 e0.2 "").log = [Event.statusEv Status.pending] := by
    simp [scheduleTypeSave, initM, ha, putDraft, setStatus]
  have hstored : (scheduleTypeSave initM a e0.1 e0.2 "").stored = none := by
    simp [scheduleTypeSave, initM, ha, putDraft, setStatus]
  have hcalls : (scheduleTypeSave initM a e0.1 e0.2 "").calls = 0 := by
    simp [scheduleTypeSave, initM, ha, putDraft, setStatus]
  simp [flush, performFlush, drainLoop, syncDirtyDrafts, syncList, syncEntry,
    remoteCall, applyEdits, syncSuccess, setStatus, putDraft, lookupDraft,
    deleteDraft, persistDrafts, normalizeDraftMap, hasPendingDrafts, sortByTime,
    insertByTime, cmdEvents, ha, hlog, hstored, hcalls]


/-- C1: a flush requested while one is in flight starts no second drain and
    only raises the trailing-pass flag (first conjunct, over all states and
    environments); once the running drain completes, exactly one additional
    full drain runs per trailing request, and an edit that arrived mid-flight
    -- to the flushed entity or to any other -- is written in that additional
    pass with its latest payload (second and third conjuncts). -/
theorem C1_single_inflight_trailing_pass :
    (∀ (env : Env) (fuel : Nat) (m : M), m.ctrl.flushing = true →
      performFlush env fuel m =
        some { m with ctrl := { m.ctrl with needsTrailingFlush := true } }) ∧
    (∀ (a : EntityId) (p1 p2 : Payload) (t1 t2 : Nat), a ≠ "" → t1 < t2 →
      ((flush (fun n => if n = 0 then ⟨[⟨a, p2, t2, ""⟩], RResp.ok none⟩
          else ⟨[], RResp.ok none⟩) 2 (scheduleTypeSave initM a p1 t1 "")).map
        fun q => (cmdEvents q.1.log, q.1.ctrl.drafts, q.1.ctrl.status, q.2.ok))
      = some ([Cmd.update a p1, Cmd.update a p2], [], Status.saved, true)) ∧
    (∀ (a b : EntityId) (p1 p2 : Payload) (t1 t2 : Nat), a ≠ "" → b ≠ "" → b ≠ a →
      ((flush (fun n => if n = 0 then ⟨[⟨b, p2, t2, ""⟩], RResp.ok none⟩
          else ⟨[], RResp.ok none⟩) 2 (scheduleTypeSave initM a p1 t1 "")).map
        fun q => (cmdEvents q.1.log, q.1.ctrl.drafts, q.1.ctrl.status, q.2.ok))
      = some ([Cmd.update a p1, Cmd.update b p2], [], Status.saved, true)) := by
  refine ⟨?_, ?_, ?_⟩
  · intro env fuel m h
    simp [performFlush, h]
  · intro a p1 p2 t1 t2 ha ht
    simp [flush, performFlush, drainLoop, syncDirtyDrafts, syncList, syncEntry,
      remoteCall, applyEdits, syncSuccess, scheduleTypeSave, initM, setStatus,
      putDraft, lookupDraft, deleteDraft, persistDrafts, normalizeDraftMap,
      hasPendingDrafts, sortByTime, insertByTime, cmdEvents, ha, not_le.mpr ht]
  · intro a b p1 p2 t1 t2 ha hb hba
    simp [flush, performFlush, drainLoop, syncDirtyDrafts, syncList, syncEntry,
      remoteCall, applyEdits, syncSuccess, scheduleTypeSave, initM, setStatus,
      putDraft, lookupDraft, deleteDraft, persistDrafts, normalizeDraftMap,
      hasPendingDrafts, sortByTime, insertByTime, cmdEvents, ha, hb, hba, Ne.symm hba]

/-- C2: a write rejected with STATE_CONFLICT triggers exactly one recovery --
    reload the remote envelope, then resend the same payload once, the reload
    observed between the two writes; if the retried write succeeds the flush
    reports ok with status saved (first conjunct), and if it conflicts again
    the error propagates: no further command is issued, status is error, the
    call reports ok: false, and the draft is retained both in the store and in
    durable storage (second conjunct). -/
theorem C2_conflict_retry_once :
    (∀ (a : EntityId) (p : Payload) (t : Nat) (R : RemoteState), a ≠ "" →
      ((flush (fun n => if n = 0 then ⟨[], RResp.conflictE⟩
          else if n = 1 then ⟨[], RResp.ok (some R)⟩ else ⟨[], RResp.ok none⟩) 1
          (scheduleTypeSave initM a p t "")).map
        fun q => (cmdEvents q.1.log, q.1.ctrl.drafts, q.1.ctrl.status, q.2.ok))
      = some ([Cmd.update a p, Cmd.load, Cmd.update a p], [], Status.saved, true)) ∧
    (∀ (a : EntityId) (p : Payload) (t : Nat) (R : RemoteState), a ≠ "" →
      ((flush (fun n => if n = 0 then ⟨[], RResp.conflictE⟩
          else if n = 1 then ⟨[], RResp.ok (some R)⟩ else ⟨[], RResp.conflictE⟩) 1
          (scheduleTypeSave initM a p t "")).map
        fun q => (cmdEvents q.1.log, q.1.ctrl.drafts, q.1.ctrl.status,
          q.1.stored, q.2.ok))
      = some ([Cmd.update a p, Cmd.load, Cmd.update a p],
          [(a, ⟨a, p, t, "", true⟩)], Status.error,
          some ⟨[(a, ⟨a, p, t, "", true⟩)], Status.error⟩, false)) := by
  constructor
  · intro a p t R ha
    simp [flush, performFlush, drainLoop, syncDirtyDrafts, syncList, syncEntry,
      syncRetry, remoteCall, applyEdits, syncSuccess, scheduleTypeSave, initM,
      setStatus, putDraft, lookupDraft, deleteDraft, persistDrafts,
      normalizeDraftMap, hasPendingDrafts, sortByTime, insertByTime, cmdEvents, ha]
  · intro a p t R ha
    simp [flush, performFlush, drainLoop, syncDirtyDrafts, syncList, syncEntry,
      syncRetry, remoteCall, applyEdits, syncSuccess, scheduleTypeSave, initM,
      setStatus, putDraft, lookupDraft, deleteDraft, persistDrafts,
      normalizeDraftMap, hasPendingDrafts, sortByTime, insertByTime, cmdEvents, ha]


/-- A closed instance of the C7 theorem at entity A. -/
theorem C7_status_sequence_witness :
    ((flush (fun _ => { edits := [], resp := RResp.ok none }) 1
        (scheduleTypeSave initM "A" 1 10 "")).map
      fun q => (statusEvents q.1.log, q.1.ctrl.status))
    = some ([Status.pending, Status.saving, Status.saved], Status.saved) :=
  C7_status_sequence "A" 1 10 (by decide)

/-- A closed instance of the C3 theorem: two edits to A coalesce into one
    write carrying the second payload. -/
theorem C3_coalescing_witness :
    ((flush (fun _ => { edits := [], resp := RResp.ok none }) 1
        (scheduleTypeSave (scheduleTypeSave initM "A" 1 10 "") "A" 2 20 "")).map
      fun q => (cmdEvents q.1.log, q.1.ctrl.drafts, q.1.ctrl.status, q.2.ok))
    = some ([Cmd.update "A" 2], [], Status.saved, true) := by
  have h := C3_coalescing "A" (1, 10) [(2, 20)] (by decide)
  simpa using h

/-- A closed instance of the C1 theorem: a reentrant flush only flags the
    trailing pass, and a mid-flight edit to A is written by one extra drain
    with its latest payload. -/
theorem C1_single_inflight_trailing_pass_witness :
    performFlush (fun _ => { edits := [], resp := RResp.ok none }) 1
        { ctrl :=
            { drafts := [("A", ⟨"A", 1, 10, "", true⟩)], status := Status.saving,
              flushing := true, needsTrailingFlush := false, destroyed := false },
          stored := none, log := [], calls := 0 } =
      some
        { ctrl :=
            { drafts := [("A", ⟨"A", 1, 10, "", true⟩)], status := Status.saving,
              flushing := true, needsTrailingFlush := true, destroyed := false },
          stored := none, log := [], calls := 0 } ∧
    ((flush (fun n => if n = 0 then ⟨[⟨"A", 5, 30, ""⟩], RResp.ok none⟩
        else ⟨[], RResp.ok none⟩) 2 (scheduleTypeSave initM "A" 1 10 "")).map
      fun q => (cmdEvents q.1.log, q.1.ctrl.drafts, q.1.ctrl.status, q.2.ok))
    = some ([Cmd.update "A" 1, Cmd.update "A" 5], [], Status.saved, true) :=
  ⟨C1_single_inflight_trailing_pass.1 _ 1 _ rfl,
   C1_single_inflight_trailing_pass.2.1 "A" 1 5 10 30 (by decide) (by decide)⟩

/-- A closed instance of the C2 theorem: one conflict, a reload, one retried
    write, then success with status saved; with a second conflict instead, the
    error propagates and the draft stays in the store and in storage. -/
theorem C2_conflict_retry_once_witness :
    ((flush (fun n => if n = 0 then ⟨[], RResp.conflictE⟩
        else if n = 1 then ⟨[], RResp.ok (some ⟨some [⟨"A", 9⟩]⟩)⟩
        else ⟨[], RResp.ok none⟩) 1
        (scheduleTypeSave initM "A" 1 10 "")).map
      fun q => (cmdEvents q.1.log, q.1.ctrl.drafts, q.1.ctrl.status, q.2.ok))
    = some ([Cmd.update "A" 1, Cmd.load, Cmd.update "A" 1], [], Status.saved, true) ∧
    ((flush (fun n => if n = 0 then ⟨[], RResp.conflictE⟩
        else if n = 1 then ⟨[], RResp.ok (some ⟨some [⟨"A", 9⟩]⟩)⟩
        else ⟨[], RResp.conflictE⟩) 1
        (scheduleTypeSave initM "A" 1 10 "")).map
      fun q => (cmdEvents q.1.log, q.1.ctrl.drafts, q.1.ctrl.status,
        q.1.stored, q.2.ok))
    = some ([Cmd.update "A" 1, Cmd.load, Cmd.update "A" 1],
        [("A", ⟨"A", 1, 10, "", true⟩)], Status.error,
        some ⟨[("A", ⟨"A", 1, 10, "", true⟩)], Status.error⟩, false) :=
  ⟨C2_conflict_retry_once.1 "A" 1 10 ⟨some [⟨"A", 9⟩]⟩ (by decide),
   C2_conflict_retry_once.2 "A" 1 10 ⟨some [⟨"A", 9⟩]⟩ (by decide)⟩

/-- The draft store holds at most one draft per entity identifier. -/
def KeysNodup (dm : DraftMap) : Prop :=
  (dm.map Prod.fst).Nodup

theorem mem_keys_putDraft (dm : DraftMap) (id x : EntityId) (d : Draft)
    (h : x ∈ (putDraft dm id d).map Prod.fst) :
    x ∈ dm.map Prod.fst ∨ x = id := by
  induction dm with
  | nil => simpa [putDraft] using h
  | cons p rest ih =>
      obtain ⟨k, e⟩ := p
      by_cases hk : k = id
      · subst hk
        simp [putDraft] at h ⊢
        tauto
      · simp only [putDraft, if_neg hk, List.map_cons, List.mem_cons] at h ⊢
        rcases h with h | h
        · exact Or.inl (Or.inl h)
        · rcases ih h with h2 | h2
          · exact Or.inl (Or.inr h2)
          · exact Or.inr h2

theorem nodup_putDraft (dm : DraftMap) (id : EntityId) (d : Draft)
    (h : KeysNodup dm) : KeysNodup (putDraft dm id d) := by
  induction dm with
  | nil => simp [KeysNodup, putDraft]
  | cons p rest ih =>
      obtain ⟨k, e⟩ := p
      unfold KeysNodup at h ⊢
      simp only [List.map_cons, List.nodup_cons] at h
      by_cases hk : k = id
      · subst hk
        simpa [putDraft, List.nodup_cons] using h
      · simp only [putDraft, if_neg hk, List.map_cons, List.nodup_cons]
        refine ⟨fun hmem => ?_, ih h.2⟩
        rcases mem_keys_putDraft rest id k d hmem with h2 | h2
        · exact h.1 h2
        · exact hk h2

theorem deleteDraft_sublist (dm : DraftMap) (id : EntityId) :
    (deleteDraft dm id).Sublist dm := by
  induction dm with
  | nil => simp [deleteDraft]
  | cons p rest ih =>
      obtain ⟨k, e⟩ := p
      by_cases hk : k = id
      · simpa [deleteDraft, hk] using ih.cons (k, e)
      · simpa [deleteDraft, hk] using ih.cons₂ (k, e)

theorem nodup_deleteDraft (dm : DraftMap) (id : EntityId)
    (h : KeysNodup dm) : KeysNodup (deleteDraft dm id) :=
  List.Nodup.sublist (List.Sublist.map Prod.fst (deleteDraft_sublist dm id)) h

theorem nodup_prune (dm : DraftMap) (remote : RemoteState)
    (h : KeysNodup dm) : KeysNodup (pruneDraftsAgainstRemote dm remote) := by
  unfold pruneDraftsAgainstRemote
  match remote.cvTypes with
  | none => exact h
  | some types =>
      exact List.Nodup.sublist (List.Sublist.map Prod.fst (List.filter_sublist dm)) h

theorem normalize_keys_sublist (dm : DraftMap) :
    ((normalizeDraftMap dm).map Prod.fst).Sublist (dm.map Prod.fst) := by
  induction dm with
  | nil => simp [normalizeDraftMap]
  | cons p rest ih =>
      obtain ⟨k, d⟩ := p
      by_cases hk : k = ""
      · simpa [normalizeDraftMap, hk] using ih.cons k
      · by_cases hd : d.dirty = true
        · simpa [normalizeDraftMap, hk, hd] using ih.cons₂ k
        · simpa [normalizeDraftMap, hk, hd] using ih.cons k

theorem nodup_normalize (dm : DraftMap) (h : KeysNodup dm) :
    KeysNodup (normalizeDraftMap dm) :=
  List.Nodup.sublist (normalize_keys_sublist dm) h

/-- The machine invariant behind C4: unique keys in the live draft store and
    in the persisted copy. -/
def Inv (m : M) : Prop :=
  KeysNodup m.ctrl.drafts ∧ ∀ p, m.stored = some p → KeysNodup p.drafts

theorem inv_setStatus (m : M) (s : Status) (h : Inv m) : Inv (setStatus m s) := by
  unfold setStatus
  split
  · exact h
  · exact h

theorem inv_persistDrafts (m : M) (h : Inv m) : Inv (persistDrafts m) := by
  refine ⟨h.1, fun p hp => ?_⟩
  simp only [persistDrafts_stored, Option.some.injEq] at hp
  rw [← hp]
  exact nodup_normalize _ h.1

theorem inv_scheduleTypeSave (m : M) (id : EntityId) (p : Payload) (t : Nat)
    (b : String) (h : Inv m) : Inv (scheduleTypeSave m id p t b) := by
  constructor
  · rw [scheduleTypeSave_drafts]
    split
    · exact h.1
    · exact nodup_putDraft _ _ _ h.1
  · rw [scheduleTypeSave_stored]
    exact h.2

theorem inv_absorb (m : M) (s : RemoteState) (h : Inv m) :
    Inv (absorbRemoteState m s) := by
  constructor
  · rw [absorb_drafts]
    exact nodup_prune _ _ h.1
  · have hst : (absorbRemoteState m s).stored = m.stored := by
      unfold absorbRemoteState
      dsimp only
      split <;> simp
    rw [hst]
    exact h.2

theorem inv_applyEdits (es : List EditReq) (m : M) (h : Inv m) :
    Inv (applyEdits m es) := by
  induction es generalizing m with
  | nil => exact h
  | cons e rest ih => exact ih _ (inv_scheduleTypeSave _ _ _ _ _ h)

theorem inv_remoteCall {env : Env} {m m2 : M} {c : Cmd} {resp : RResp}
    (heq : remoteCall env m c = (m2, resp)) (h : Inv m) : Inv m2 := by
  have hm : m2 = applyEdits
      { m with log := m.log ++ [Event.cmdEv c], calls := m.calls + 1 }
      (env m.calls).edits := congrArg Prod.fst heq.symm
  subst hm
  exact inv_applyEdits _ _ ⟨h.1, h.2⟩

theorem inv_syncSuccess (m : M) (entry : Draft) (st : Option RemoteState)
    (h : Inv m) : Inv (syncSuccess m entry st) := by
  unfold syncSuccess
  have hm1 : ∀ m1 : M, Inv m1 →
      Inv (match st with
        | some s => absorbRemoteState
            { m1 with log := m1.log ++ [Event.stateEv "sync" s] } s
        | none => m1) := by
    intro m1 h1
    cases st with
    | none => exact h1
    | some s => exact inv_absorb _ _ ⟨h1.1, h1.2⟩
  split
  · exact hm1 _ ⟨nodup_deleteDraft _ _ h.1, h.2⟩
  · split
    · exact hm1 _ ⟨nodup_deleteDraft _ _ h.1, h.2⟩
    · exact hm1 _ ⟨h.1, h.2⟩

theorem inv_syncRetry (env : Env) (m : M) (entry : Draft) (m2 : M) (b : Bool)
    (heq : syncRetry env m entry = (m2, b)) (h : Inv m) : Inv m2 := by
  unfold syncRetry at heq
  split at heq
  all_goals {
    next heqc =>
      obtain ⟨hm, -⟩ := Prod.mk.injEq .. ▸ heq
      subst hm
      first
        | exact inv_syncSuccess _ _ _ (inv_remoteCall heqc h)
        | exact inv_remoteCall heqc h
  }

theorem inv_syncEntry (env : Env) (m : M) (entry : Draft) (m2 : M) (b : Bool)
    (heq : syncEntry env m entry = (m2, b)) (h : Inv m) : Inv m2 := by
  unfold syncEntry at heq
  split at heq
  · next heqc =>
      obtain ⟨hm, -⟩ := Prod.mk.injEq .. ▸ heq
      subst hm
      exact inv_syncSuccess _ _ _ (inv_remoteCall heqc h)
  · next heqc =>
      split at heq
      · next m2x st heqc2 =>
          cases st with
          | none =>
              dsimp only at heq
              exact inv_syncRetry env m2x entry m2 b heq
                (inv_remoteCall heqc2 (inv_remoteCall heqc h))
          | some s =>
              dsimp only at heq
              have hinner : Inv { m2x with
                  log := m2x.log ++ [Event.stateEv "conflict-reload" s] } := by
                have h2 := inv_remoteCall heqc2 (inv_remoteCall heqc h)
                exact ⟨h2.1, h2.2⟩
              exact inv_syncRetry env _ entry m2 b heq hinner
      · next heqc2 =>
          obtain ⟨hm, -⟩ := Prod.mk.injEq .. ▸ heq
          subst hm
          exact inv_remoteCall heqc2 (inv_remoteCall heqc h)
      · next heqc2 =>
          obtain ⟨hm, -⟩ := Prod.mk.injEq .. ▸ heq
          subst hm
          exact inv_remoteCall heqc2 (inv_remoteCall heqc h)
  · next heqc =>
      obtain ⟨hm, -⟩ := Prod.mk.injEq .. ▸ heq
      subst hm
      exact inv_remoteCall heqc h

theorem inv_syncList (env : Env) (es : List Draft) :
    ∀ (m m2 : M) (b : Bool), syncList env m es = (m2, b) → Inv m → Inv m2 := by
  induction es with
  | nil =>
      intro m m2 b heq h
      obtain ⟨hm, -⟩ := Prod.mk.injEq .. ▸ heq
      subst hm
      exact h
  | cons e rest ih =>
      intro m m2 b heq h
      unfold syncList at heq
      split at heq
      · next m1 heqe =>
          exact ih _ _ _ heq (inv_syncEntry env m e m1 true heqe h)
      · next m1 heqe =>
          obtain ⟨hm, -⟩ := Prod.mk.injEq .. ▸ heq
          subst hm
          exact inv_syncEntry env m e m1 false heqe h

theorem inv_syncDirtyDrafts (env : Env) (m m2 : M) (b : Bool)
    (heq : syncDirtyDrafts env m = (m2, b)) (h : Inv m) : Inv m2 :=
  inv_syncList env _ m m2 b heq h

theorem inv_drainLoop (env : Env) :
    ∀ (fuel : Nat) (m m2 : M) (b : Bool),
    drainLoop env fuel m = some (m2, b) → Inv m → Inv m2 := by
  intro fuel
  induction fuel with
  | zero => intro m m2 b heq; cases heq
  | succ n ih =>
      intro m m2 b heq h
      unfold drainLoop at heq
      dsimp only at heq
      split at heq
      · next m3 heqd =>
          obtain ⟨hm, -⟩ := Prod.mk.injEq .. ▸ Option.some.inj heq
          subst hm
          exact inv_syncDirtyDrafts env _ _ _ heqd ⟨h.1, h.2⟩
      · next m3 heqd =>
          split at heq
          · exact ih _ _ _ heq (inv_syncDirtyDrafts env _ _ _ heqd ⟨h.1, h.2⟩)
          · obtain ⟨hm, -⟩ := Prod.mk.injEq .. ▸ Option.some.inj heq
            subst hm
            exact inv_syncDirtyDrafts env _ _ _ heqd ⟨h.1, h.2⟩

theorem inv_performFlush (env : Env) (fuel : Nat) (m m2 : M)
    (heq : performFlush env fuel m = some m2) (h : Inv m) : Inv m2 := by
  unfold performFlush at heq
  split at heq
  · obtain rfl := (Option.some.inj heq).symm
    exact ⟨h.1, h.2⟩
  · split at heq
    · dsimp only at heq
      split at heq
      · cases heq
      · next m3 ok heqd =>
          obtain rfl := (Option.some.inj heq).symm
          have h3 : Inv m3 := inv_drainLoop env fuel _ m3 ok heqd
            (inv_setStatus _ _ ⟨h.1, h.2⟩)
          refine inv_persistDrafts _ ?_
          constructor
          · split
            · split <;> simpa using h3.1
            · simpa using h3.1
          · intro p hp
            refine h3.2 p ?_
            revert hp
            split
            · split <;> simp
            · simp
    · split at heq
      · obtain rfl := (Option.some.inj heq).symm
        exact h
      · obtain rfl := (Option.some.inj heq).symm
        exact inv_setStatus _ _ h

theorem inv_flush (env : Env) (fuel : Nat) (m m2 : M) (r : FlushResult)
    (heq : flush env fuel m = some (m2, r)) (h : Inv m) : Inv m2 := by
  unfold flush at heq
  split at heq
  · obtain ⟨hm, -⟩ := Prod.mk.injEq .. ▸ Option.some.inj heq
    subst hm
    exact h
  · dsimp only at heq
    split at heq
    · cases heq
    · next mp heqp =>
        obtain ⟨hm, -⟩ := Prod.mk.injEq .. ▸ Option.some.inj heq
        subst hm
        exact inv_performFlush env fuel _ mp heqp (inv_persistDrafts _ h)

theorem inv_restore (m : M) (remote : RemoteState) (h : Inv m) :
    Inv (restoreDrafts m remote).1 := by
  unfold restoreDrafts
  dsimp only
  have hload : KeysNodup (pruneDraftsAgainstRemote
      (match m.stored with
        | some p => normalizeDraftMap p.drafts
        | none => []) remote) := by
    refine nodup_prune _ _ ?_
    cases hs : m.stored with
    | none => simp [KeysNodup]
    | some p => exact nodup_normalize _ (h.2 p hs)
  refine inv_persistDrafts _ ?_
  constructor
  · split <;> simpa using hload
  · intro p hp
    revert hp
    split <;> simpa using fun hp => h.2 p hp

theorem inv_destroy (m : M) (h : Inv m) : Inv (destroy m) :=
  ⟨h.1, h.2⟩

theorem lookupDraft_putDraft_self (dm : DraftMap) (id : EntityId) (d : Draft) :
    lookupDraft (putDraft dm id d) id = some d := by
  induction dm with
  | nil => simp [putDraft, lookupDraft]
  | cons p rest ih =>
      obtain ⟨k, e⟩ := p
      by_cases hk : k = id
      · simp [putDraft, hk, lookupDraft]
      · simp [putDraft, hk, lookupDraft, ih]

/-- One external interaction with the controller: a host edit, a flush call, a
    remote-envelope absorption, a restore from storage, or destroy. -/
inductive Step : M → M → Prop
  | edit (m : M) (id : EntityId) (data : Payload) (time : Nat) (base : String) :
      Step m (scheduleTypeSave m id data time base)
  | flushCall (m m2 : M) (env : Env) (fuel : Nat) (r : FlushResult)
      (h : flush env fuel m = some (m2, r)) : Step m m2
  | absorb (m : M) (st : RemoteState) : Step m (absorbRemoteState m st)
  | restore (m : M) (st : RemoteState) : Step m (restoreDrafts m st).1
  | destroyCall (m : M) : Step m (destroy m)

/-- States reachable from a freshly created controller. -/
def Reachable (m : M) : Prop :=
  Relation.ReflTransGen Step initM m

/-- C4: at every reachable controller state the draft store holds at most one
    draft per entity identifier, and an edit to an entity replaces any existing
    draft wholesale -- the stored draft becomes exactly the new payload, base
    version, timestamp and dirty flag, with keys still unique -- rather than
    queuing a second draft. -/
theorem C4_one_draft_per_entity (m : M) (hm : Reachable m) :
    KeysNodup m.ctrl.drafts ∧
    ∀ (id : EntityId) (data : Payload) (time : Nat) (base : String), id ≠ "" →
      lookupDraft (scheduleTypeSave m id data time base).ctrl.drafts id =
        some ⟨id, data, time, base, true⟩ ∧
      KeysNodup (scheduleTypeSave m id data time base).ctrl.drafts := by
  have hInv : Inv m := by
    induction hm with
    | refl => exact ⟨by simp [initM, KeysNodup], by simp [initM]⟩
    | tail hr hstep ih =>
        cases hstep with
        | edit id data time base => exact inv_scheduleTypeSave _ _ _ _ _ ih
        | flushCall m2v envv fuelv rv hfv => exact inv_flush envv fuelv _ _ rv hfv ih
        | absorb st => exact inv_absorb _ _ ih
        | restore st => exact inv_restore _ _ ih
        | destroyCall => exact inv_destroy _ ih
  refine ⟨hInv.1, fun id data time base hid => ⟨?_, ?_⟩⟩
  · rw [scheduleTypeSave_drafts]
    rw [if_neg hid]
    exact lookupDraft_putDraft_self _ _ _
  · exact (inv_scheduleTypeSave _ _ _ _ _ hInv).1

/-- A closed instance of the C4 theorem at a reachable state holding one draft
    for A: a second edit to A replaces that draft wholesale and the key set
    stays duplicate-free. -/
theorem C4_one_draft_per_entity_witness :
    KeysNodup (scheduleTypeSave initM "A" 1 10 "").ctrl.drafts ∧
    lookupDraft
        (scheduleTypeSave (scheduleTypeSave initM "A" 1 10 "") "A" 2 20 "").ctrl.drafts
        "A" = some ⟨"A", 2, 20, "", true⟩ ∧
    KeysNodup
      (scheduleTypeSave (scheduleTypeSave initM "A" 1 10 "") "A" 2 20 "").ctrl.drafts := by
  have h := C4_one_draft_per_entity (scheduleTypeSave initM "A" 1 10 "")
    (Relation.ReflTransGen.single (Step.edit initM "A" 1 10 ""))
  exact ⟨h.1, (h.2 "A" 2 20 "" (by decide)).1, (h.2 "A" 2 20 "" (by decide)).2⟩

end Corpus
